import Mathlib

set_option linter.unusedVariables false

/-!
Shallow embedding of the declarative reconciliation engine of
kubebuilder-declarative-pattern, covering the pieces the claims are about:

* the object-level transform stage: the image-registry rewrite
  (`applyImageRegistry`, `applyPrivateRegistryToContainer`,
  `applyImagePullSecret`), the application-sync transforms
  (`transformApplication`, `TransformApplicationFromStatus`) and the
  unique-kind enumerations (`uniqueGroupVersionKind`, `uniqueGroupKind`);
* the dynamic watch registry (`watchAll.Notify`) and its registered-kind set.

Modelling conventions:

* `manifest.Objects.Items` is modelled as `List Object`; a manifest object
  carries its identity tuple, a path-keyed association list for the nested
  fields written through `SetNestedField`, and the container list /
  image-pull-secret list touched by the image-registry transform.  Nested maps
  are modelled as key-to-value maps (an association list keyed by path), so a
  field write replaces any previous binding of the same path.
* Go's `context.Context` arguments carry no data used by this code and are
  dropped.  Logging calls are dropped (they do not affect control flow).
* In-place mutation plus a returned `error` is modelled by returning a pair
  `Option String × List Object` holding the error (if any) and the resulting
  object list.
* Go map insertion followed by map iteration is modelled in first-insertion
  order (`insertUnique`); `sort.Slice` is modelled by Go's insertion-sort pass
  (`insertionSortGo`), faithfully keeping the comparator written in the
  source, which compares an element with itself.
* The external `DynamicWatch.Add` collaborator is modelled by a success
  oracle `dwAdd : GroupVersionKind → Bool`; the list-options filter and the
  target object metadata it receives do not influence the registry state.
-/

/-- Identity tuple `schema.GroupVersionKind`. -/
structure GroupVersionKind where
  group : String
  version : String
  kind : String
deriving DecidableEq, Repr

/-- Identity tuple `metav1.GroupKind`. -/
structure GroupKind where
  group : String
  kind : String
deriving DecidableEq, Repr

/-- Byte-wise Go string comparison, expressed on the character lists.  Lean's
String `<` agrees with it (`String.lt_iff_toList_lt`), but the String
instance does not evaluate inside the kernel, so executable positions use the
list form. -/
def goStringLess (s t : String) : Bool :=
  decide (s.data < t.data)

/-- Canonical string form of a `GroupVersionKind`, as produced by
`schema.GroupVersionKind.String`. -/
def gvkToString (gvk : GroupVersionKind) : String :=
  gvk.group ++ "/" ++ gvk.version ++ ", Kind=" ++ gvk.kind

/-- Canonical string form of a `GroupKind` (kind-dot-group, the group omitted
when empty). -/
def gkToString (gk : GroupKind) : String :=
  if gk.group == "" then gk.kind else gk.kind ++ "." ++ gk.group

/-- Values that the modelled code stores into nested fields of a manifest
object.  Keeping the Go value shapes distinct (a string, a label selector, a
list of `GroupVersionKind`, a list of `GroupKind`) lets theorems observe which
of them a transform wrote. -/
inductive FieldValue where
  | str : String → FieldValue
  | labelSelector : List (String × String) → FieldValue
  | gvkList : List GroupVersionKind → FieldValue
  | gkList : List GroupKind → FieldValue
deriving DecidableEq, Repr

/-- One container of a workload pod template; the image-registry transform
reads and writes its `image` field. -/
structure Container where
  image : String
deriving DecidableEq, Repr

/-- One parsed manifest object (`manifest.Object`). -/
structure Object where
  group : String
  version : String
  kind : String
  ns : String
  name : String
  fields : List (List String × FieldValue)
  containers : List Container
  imagePullSecrets : List String
deriving DecidableEq, Repr, Inhabited

/-- The `GroupVersionKind` of a manifest object (`o.GroupVersionKind()`). -/
def Object.groupVersionKind (o : Object) : GroupVersionKind :=
  ⟨o.group, o.version, o.kind⟩

/-- The `GroupKind` of a manifest object (`o.GroupKind()`). -/
def Object.groupKind (o : Object) : GroupKind :=
  ⟨o.group, o.kind⟩

/-- Replace the binding of `path` in a path-keyed association list (map
assignment: any previous binding of the same path is dropped, the new binding
is recorded). -/
def setEntry (fs : List (List String × FieldValue)) (path : List String)
    (v : FieldValue) : List (List String × FieldValue) :=
  fs.filter (fun e => !(e.1 == path)) ++ [(path, v)]

/-- Store `v` at `path` in the object's nested field tree
(`manifest.Object.SetNestedFieldNoCopy(value, fields...)`). -/
def Object.SetNestedFieldNoCopy (o : Object) (v : FieldValue)
    (path : List String) : Object :=
  { o with fields := setEntry o.fields path v }

/-- Store `v` at `path` in the object's nested field tree
(`manifest.Object.SetNestedField(value, fields...)`); the deep copy the Go
version performs on `v` is invisible to a value model. -/
def Object.SetNestedField (o : Object) (v : FieldValue)
    (path : List String) : Object :=
  o.SetNestedFieldNoCopy v path

/-- Observer for the nested field tree: the value stored at `path`, if any. -/
def Object.getNestedField (o : Object) (path : List String) : Option FieldValue :=
  (o.fields.find? (fun e => e.1 == path)).map (fun e => e.2)

/-- Modelled from the spec: `manifest.Object.MutateContainers` (the manifest
package is not under src/) applies the given function to every container list
entry of a workload-shaped object.  The source's container mutators cannot
fail on this container representation (reading a string `image` field never
errors), so the accessor is total here. -/
def Object.MutateContainers (o : Object) (fn : Container → Container) : Object :=
  { o with containers := o.containers.map fn }

/-- Modelled from the spec: `manifest.Object.MutatePodSpec` (the manifest
package is not under src/) applies the given function to the pod
specification; the only pod-spec datum the modelled code touches is the
`imagePullSecrets` name list. -/
def Object.MutatePodSpec (o : Object) (fn : List String → List String) : Object :=
  { o with imagePullSecrets := fn o.imagePullSecrets }

/-- Characters of the last '/'-separated segment: everything after the final
`'/'` (the whole input when it has none). -/
def lastSegmentAux (cs : List Char) : List Char :=
  cs.foldl (fun acc c => if c = '/' then [] else acc ++ [c]) []

/-- Last element of `strings.Split(image, "/")`: the suffix of `image` after
its final `'/'`, or `image` itself when it contains none. -/
def lastSegment (image : String) : String :=
  String.mk (lastSegmentAux image.data)

/-- Per-container body of the image-registry rewrite
(`applyPrivateRegistryToContainer`): `container["image"] = registry + "/" +
lastPathSegment(image)`. -/
def applyPrivateRegistryToContainer (registry : String)
    (container : Container) : Container :=
  { container with image := registry ++ "/" ++ lastSegment container.image }

/-- Pod-spec body of the pull-secret injection (`applyImagePullSecret`):
the `imagePullSecrets` list is replaced by the single configured name. -/
def applyImagePullSecret (secret : String)
    (imagePullSecrets : List String) : List String :=
  [secret]

/-- Health and version data reachable through the
`addonsv1alpha1.CommonObject` interface: `GetCommonStatus().Healthy` and
`CommonSpec().Version`. -/
structure CommonObject where
  healthy : Bool
  version : String
deriving DecidableEq, Repr

/-- The owner custom resource (`DeclarativeObject`): its identity plus,
when the concrete type implements `addonsv1alpha1.CommonObject`, the common
status/spec data (`common = none` models a type for which the interface
type-assertion fails). -/
structure DeclarativeObject where
  name : String
  ns : String
  common : Option CommonObject
deriving DecidableEq, Repr

/-- `LabelMaker` returns a fixed set of labels for a given owner (the
`context.Context` argument is dropped). -/
abbrev LabelMaker := DeclarativeObject → List (String × String)

/-- Per-object body of `applyImageRegistry`'s loop: for the fixed workload
kinds, rewrite every container image when a registry is configured and
replace the pull-secret list when a secret is configured. -/
def applyImageRegistryToObject (registry secret : String)
    (manifestItem : Object) : Object :=
  if manifestItem.kind == "Deployment" || manifestItem.kind == "DaemonSet" ||
      manifestItem.kind == "StatefulSet" || manifestItem.kind == "Job" ||
      manifestItem.kind == "CronJob" then
    let afterRegistry :=
      if registry != "" then
        manifestItem.MutateContainers (applyPrivateRegistryToContainer registry)
      else manifestItem
    let afterSecret :=
      if secret != "" then
        afterRegistry.MutatePodSpec (applyImagePullSecret secret)
      else afterRegistry
    afterSecret
  else manifestItem

/-- `applyImageRegistry`: no-op when neither a registry nor a secret is
configured, otherwise the per-object rewrite over every manifest item.  The
container mutators cannot fail on this model (see `Object.MutateContainers`),
so the returned error is always `none`. -/
def applyImageRegistry (operatorObject : DeclarativeObject)
    (objs : List Object) (registry secret : String) :
    Option String × List Object :=
  if registry == "" && secret == "" then (none, objs)
  else (none, objs.map (applyImageRegistryToObject registry secret))

/-- Set-insert in first-insertion order: how successive Go map insertions
build up the key set. -/
def insertUnique [DecidableEq α] (l : List α) (a : α) : List α :=
  if a ∈ l then l else l ++ [a]

/-- Inner loop of Go's insertion sort: bubble the element at index `j` left
while the comparator orders it before its left neighbour. -/
def bubbleLeft (less : α → α → Bool) : Array α → Nat → Array α
  | a, 0 => a
  | a, j + 1 =>
    if h : j + 1 < a.size then
      have hj : j < a.size := Nat.lt_of_succ_lt h
      if less (a.get ⟨j + 1, h⟩) (a.get ⟨j, hj⟩) then
        bubbleLeft less (a.swap ⟨j, hj⟩ ⟨j + 1, h⟩) j
      else a
    else a

/-- Go's insertion sort (`insertionSort_func`), the `sort.Slice` algorithm at
the slice lengths arising here: for each index in order, bubble it left. -/
def insertionSortGo (less : α → α → Bool) (a : Array α) : Array α :=
  (List.range a.size).foldl (fun arr i => bubbleLeft less arr i) a

/-- `sort.Slice` on a list, with the comparator supplied by the caller. -/
def sortSlice (less : α → α → Bool) (l : List α) : List α :=
  (insertionSortGo less l.toArray).toList

/-- `uniqueGroupVersionKind` from the watch-registry source: collect the
distinct `GroupVersionKind` of the objects (Go map modelled in
first-insertion order), then `sort.Slice` with the comparator exactly as
written in the source — `unique[i].String() < unique[i].String()`, which
compares an element with itself. -/
def uniqueGroupVersionKind (objects : List Object) : List GroupVersionKind :=
  let unique := objects.foldl (fun kinds o => insertUnique kinds o.groupVersionKind) []
  sortSlice (fun x y => goStringLess (gvkToString x) (gvkToString x)) unique

/-- `uniqueGroupKind` from the dashboard controller source: collect the
distinct `GroupKind` of the objects, then `sort.Slice` with the comparator
exactly as written in the source — `unique[i].String() < unique[i].String()`,
which compares an element with itself. -/
def uniqueGroupKind (objects : List Object) : List GroupKind :=
  let unique := objects.foldl (fun kinds o => insertUnique kinds o.groupKind) []
  sortSlice (fun x y => goStringLess (gkToString x) (gkToString x)) unique

/-- The check `o.Group == "app.k8s.io" && o.Kind == "Application"` both
application-sync transforms perform on each manifest object. -/
def isApplication (o : Object) : Bool :=
  o.group == "app.k8s.io" && o.kind == "Application"

/-- Outcome of the application-locating loop: more than one Application
found (early return), none found, or exactly one found at the recorded
index. -/
inductive AppScan where
  | multiple : AppScan
  | zero : AppScan
  | one : Nat → Object → AppScan
deriving DecidableEq, Repr

/-- The `var app *manifest.Object; for _, o := range objects.Items { ... }`
loop shared by both application-sync transforms: remember the first
Application seen, return early when a second one appears. -/
def scanAppsAux : List Object → Nat → Option (Nat × Object) → AppScan
  | [], _, none => .zero
  | [], _, some (j, a) => .one j a
  | o :: rest, idx, acc =>
    if isApplication o then
      match acc with
      | some _ => .multiple
      | none => scanAppsAux rest (idx + 1) (some (idx, o))
    else scanAppsAux rest (idx + 1) acc

/-- Locate the at-most-one Application object of an object set. -/
def scanApps (objs : List Object) : AppScan :=
  scanAppsAux objs 0 none

/-- Number of `app.k8s.io/Application` objects in an object set. -/
def countApps (objs : List Object) : Nat :=
  objs.countP isApplication

/-- `transformApplication` from the dashboard controller source: with exactly
one Application present, overwrite its `spec.selector` with a label selector
from the owner's label set and its `spec.componentGroupKinds` with
`uniqueGroupVersionKind(objects)`; with zero or several Applications, log and
return `nil` without mutating anything. -/
def transformApplication (inst : DeclarativeObject) (objects : List Object)
    (labelMaker : LabelMaker) : Option String × List Object :=
  match scanApps objects with
  | .multiple => (none, objects)
  | .zero => (none, objects)
  | .one i app =>
    let app := app.SetNestedFieldNoCopy
      (.labelSelector (labelMaker inst)) ["spec", "selector"]
    let app := app.SetNestedFieldNoCopy
      (.gvkList (uniqueGroupVersionKind objects)) ["spec", "componentGroupKinds"]
    (none, objects.set i app)

/-- Assembly phase used while components are still being deployed. -/
def Pending : String := "Pending"

/-- Assembly phase used once all components are deployed. -/
def Succeeded : String := "Succeeded"

/-- Assembly phase used when deployment failed. -/
def Failed : String := "Failed"

/-- `TransformApplicationFromStatus` from `pkg/patterns/addon/application.go`:
fail when the owner does not implement `addonsv1alpha1.CommonObject`;
otherwise, with exactly one Application present, overwrite its
`spec.descriptor.version` with the owner's declared version and its
`spec.assemblyPhase` with `Succeeded`/`Pending` according to owner health;
with zero or several Applications, log and return `nil` without mutating
anything. -/
def TransformApplicationFromStatus (inst : DeclarativeObject)
    (objects : List Object) : Option String × List Object :=
  match inst.common with
  | none => (some "instance was not an addonsv1alpha1.CommonObject", objects)
  | some addonObject =>
    match scanApps objects with
    | .multiple => (none, objects)
    | .zero => (none, objects)
    | .one i app =>
      let assemblyPhase := if addonObject.healthy then Succeeded else Pending
      let app := app.SetNestedField
        (.str addonObject.version) ["spec", "descriptor", "version"]
      let app := app.SetNestedField
        (.str assemblyPhase) ["spec", "assemblyPhase"]
      (none, objects.set i app)

/-- The built-in object-level transform stage in the order the dashboard
controller registers it: image-registry rewrite, then the managed-application
sync, then the status-driven application sync; transforms run in registration
order and the first error aborts the remaining ones. -/
def objectTransformPipeline (inst : DeclarativeObject) (labelMaker : LabelMaker)
    (registry secret : String) (objs : List Object) :
    Option String × List Object :=
  match applyImageRegistry inst objs registry secret with
  | (some e, objs1) => (some e, objs1)
  | (none, objs1) =>
    match transformApplication inst objs1 labelMaker with
    | (some e, objs2) => (some e, objs2)
    | (none, objs2) => TransformApplicationFromStatus inst objs2

/-- A possible result of enumerating the kinds map of an object set: Go map
iteration yields the key set in an unspecified, runtime-randomized order,
and the subsequent `sort.Slice` call never reorders anything (its comparator
compares an element with itself, see `uniqueGroupVersionKind`), so the
enumeration an execution observes is a permutation of the distinct kinds.
The deterministic model fixes first-insertion order; this predicate ranges
over every order an execution can produce. -/
def IsMapIterationOrder (objects : List Object)
    (enum : List GroupVersionKind) : Prop :=
  enum.Perm
    (objects.foldl (fun kinds o => insertUnique kinds o.groupVersionKind) [])

/-- `transformApplication` with the kinds-map enumeration made an explicit
parameter: the source computes `uniqueGroupVersionKind(objects)` at the
`spec.componentGroupKinds` write, and the order of that list is the runtime
map-iteration order (`IsMapIterationOrder`).  Instantiating `enum` with
`uniqueGroupVersionKind objects` gives back the deterministic model
(`transformApplicationWithEnum_enum`). -/
def transformApplicationWithEnum (enum : List GroupVersionKind)
    (inst : DeclarativeObject) (objects : List Object)
    (labelMaker : LabelMaker) : Option String × List Object :=
  match scanApps objects with
  | .multiple => (none, objects)
  | .zero => (none, objects)
  | .one i app =>
    let app := app.SetNestedFieldNoCopy
      (.labelSelector (labelMaker inst)) ["spec", "selector"]
    let app := app.SetNestedFieldNoCopy
      (.gvkList enum) ["spec", "componentGroupKinds"]
    (none, objects.set i app)

/-- The object transform stage with the application-sync kinds enumeration
made an explicit parameter (see `transformApplicationWithEnum`). -/
def objectTransformPipelineWithEnum (enum : List GroupVersionKind)
    (inst : DeclarativeObject) (labelMaker : LabelMaker)
    (registry secret : String) (objs : List Object) :
    Option String × List Object :=
  match applyImageRegistry inst objs registry secret with
  | (some e, objs1) => (some e, objs1)
  | (none, objs1) =>
    match transformApplicationWithEnum enum inst objs1 labelMaker with
    | (some e, objs2) => (some e, objs2)
    | (none, objs2) => TransformApplicationFromStatus inst objs2

/-- The `for _, gvk := range uniqueGroupVersionKind(objs)` loop of
`watchAll.Notify`: skip kinds already registered; otherwise call
`DynamicWatch.Add` (success given by the `dwAdd` oracle) and record the kind
as registered only when `Add` succeeded; a failed `Add` is logged and the
loop continues.  Returns the final registered set and the ordered log of
`Add` invocations. -/
def notifyLoop (dwAdd : GroupVersionKind → Bool) :
    List GroupVersionKind → List GroupVersionKind →
    List GroupVersionKind × List GroupVersionKind
  | registered, [] => (registered, [])
  | registered, gvk :: rest =>
    if gvk ∈ registered then notifyLoop dwAdd registered rest
    else if dwAdd gvk then
      let r := notifyLoop dwAdd (insertUnique registered gvk) rest
      (r.1, gvk :: r.2)
    else
      let r := notifyLoop dwAdd registered rest
      (r.1, gvk :: r.2)

/-- `watchAll.Notify`: run the registration loop over the unique-kind
enumeration of the object set and return `nil`.  The owner `dest` only feeds
the list-options filter and target metadata handed to `Add`, which do not
influence the registry state; `dwAdd` models `Add` success.  Result:
(returned error, final registered set, ordered `Add` invocation log). -/
def watchAll.Notify (dwAdd : GroupVersionKind → Bool)
    (registered : List GroupVersionKind) (dest : DeclarativeObject)
    (objs : List Object) :
    Option String × List GroupVersionKind × List GroupVersionKind :=
  (none, notifyLoop dwAdd registered (uniqueGroupVersionKind objs))

/-- Sequential composition of `watchAll.Notify` over successive
materializations, threading the registered set. -/
def runNotifies (dwAdd : GroupVersionKind → Bool) (dest : DeclarativeObject) :
    List (List Object) → List GroupVersionKind → List GroupVersionKind
  | [], registered => registered
  | objs :: rest, registered =>
    runNotifies dwAdd dest rest (watchAll.Notify dwAdd registered dest objs).2.1

/-- Sequential composition of `watchAll.Notify` that also concatenates the
`Add` invocation logs of the successive calls. -/
def runNotifiesLog (dwAdd : GroupVersionKind → Bool) (dest : DeclarativeObject) :
    List (List Object) → List GroupVersionKind →
    List GroupVersionKind × List GroupVersionKind
  | [], registered => (registered, [])
  | objs :: rest, registered =>
    let r := watchAll.Notify dwAdd registered dest objs
    let next := runNotifiesLog dwAdd dest rest r.2.1
    (next.1, r.2.2 ++ next.2)

/-- Shared state of the process-wide watch registry: the registered-kind map
plus the observable log of external `Add` calls. -/
structure SharedState where
  registered : List GroupVersionKind
  addCalls : List GroupVersionKind
deriving DecidableEq, Repr

/-- Progress of one concurrent `Notify` execution through its kind list:
`checked = true` records that the goroutine has read the registry map for the
head kind, found it absent, and has not yet performed the `Add`-and-insert. -/
structure ThreadState where
  pending : List GroupVersionKind
  checked : Bool
deriving DecidableEq, Repr

/-- One micro-step of an unsynchronized `Notify` loop iteration: the
registered-map read is a separate step from the `Add` call plus map insert
that follow it (the source guards none of them with a lock); `Add` is assumed
to succeed. -/
def threadStep (s : SharedState) (t : ThreadState) : SharedState × ThreadState :=
  match t.pending, t.checked with
  | [], _ => (s, t)
  | gvk :: rest, false =>
    if gvk ∈ s.registered then (s, ⟨rest, false⟩)
    else (s, ⟨gvk :: rest, true⟩)
  | gvk :: rest, true =>
    (⟨insertUnique s.registered gvk, s.addCalls ++ [gvk]⟩, ⟨rest, false⟩)

/-- Execute two concurrent `Notify` loops under an explicit interleaving
schedule (`true` steps the first thread, `false` the second). -/
def runSched : List Bool → SharedState → ThreadState → ThreadState → SharedState
  | [], s, _, _ => s
  | b :: bs, s, t1, t2 =>
    if b then
      let r := threadStep s t1
      runSched bs r.1 r.2 t2
    else
      let r := threadStep s t2
      runSched bs r.1 t1 r.2

/-- Plain manifest object with the given identity and no other data. -/
def mkObject (group version kind : String) : Object :=
  ⟨group, version, kind, "", "", [], [], []⟩

def gvkA : GroupVersionKind := ⟨"", "v1", "A"⟩

def gvkB : GroupVersionKind := ⟨"", "v1", "B"⟩

def gvkC : GroupVersionKind := ⟨"", "v1", "C"⟩

def stsObj : Object := mkObject "apps" "v1" "StatefulSet"

def dsObj : Object := mkObject "apps" "v1" "DaemonSet"

def appObj : Object := mkObject "app.k8s.io" "v1beta1" "Application"

def deployObj : Object :=
  { mkObject "apps" "v1" "Deployment" with containers := [⟨"myrepo/foo/bar:v1"⟩] }

def ownerWithCommon : DeclarativeObject :=
  ⟨"owner", "test-ns", some ⟨true, "1.0.0"⟩⟩

def ownerNoCommon : DeclarativeObject :=
  ⟨"owner", "test-ns", none⟩

def fixedLabels : LabelMaker :=
  fun _ => [("k8s-app", "kubernetes-dashboard")]

/-- With an everywhere-false comparator the bubble pass never swaps. -/
theorem bubbleLeft_of_false {α : Type} {less : α → α → Bool}
    (h : ∀ x y, less x y = false) (a : Array α) (j : Nat) :
    bubbleLeft less a j = a := by
  cases j with
  | zero => rfl
  | succ j =>
    simp only [bubbleLeft, h]
    split <;> simp

/-- With an everywhere-false comparator Go's insertion sort is the identity. -/
theorem insertionSortGo_of_false {α : Type} {less : α → α → Bool}
    (h : ∀ x y, less x y = false) (a : Array α) :
    insertionSortGo less a = a := by
  unfold insertionSortGo
  generalize List.range a.size = l
  induction l generalizing a with
  | nil => rfl
  | cons x xs ih => simp [List.foldl_cons, bubbleLeft_of_false h, ih]

/-- With an everywhere-false comparator `sort.Slice` leaves the list as it
was. -/
theorem sortSlice_of_false {α : Type} (less : α → α → Bool)
    (h : ∀ x y, less x y = false) (l : List α) :
    sortSlice less l = l := by
  simp [sortSlice, insertionSortGo_of_false h]

/-- The self-comparing sort comparator never fires, so the unique-kind
enumeration is just the distinct kinds in first-insertion order. -/
theorem uniqueGroupVersionKind_eq (objects : List Object) :
    uniqueGroupVersionKind objects =
      objects.foldl (fun kinds o => insertUnique kinds o.groupVersionKind) [] := by
  unfold uniqueGroupVersionKind
  exact sortSlice_of_false (fun x y => goStringLess (gvkToString x) (gvkToString x))
    (fun x y => decide_eq_false (lt_irrefl _)) _

/-- Same fact for the `GroupKind` enumeration. -/
theorem uniqueGroupKind_eq (objects : List Object) :
    uniqueGroupKind objects =
      objects.foldl (fun kinds o => insertUnique kinds o.groupKind) [] := by
  unfold uniqueGroupKind
  exact sortSlice_of_false (fun x y => goStringLess (gkToString x) (gkToString x))
    (fun x y => decide_eq_false (lt_irrefl _)) _

/-- Membership in the registered set after one registration loop: a kind is
registered afterwards iff it was registered before, or it was enumerated, its
`Add` succeeded, and it was not yet registered. -/
theorem notifyLoop_fst_mem (dwAdd : GroupVersionKind → Bool)
    (g : GroupVersionKind) (l : List GroupVersionKind) :
    ∀ registered : List GroupVersionKind,
      g ∈ (notifyLoop dwAdd registered l).1 ↔
        g ∈ registered ∨ (g ∈ l ∧ dwAdd g = true ∧ g ∉ registered) := by
  induction l with
  | nil => intro reg; simp [notifyLoop]
  | cons gvk rest ih =>
    intro reg
    by_cases hmem : gvk ∈ reg
    · rw [show notifyLoop dwAdd reg (gvk :: rest) = notifyLoop dwAdd reg rest by
        simp [notifyLoop, hmem]]
      rw [ih reg]
      by_cases hg : g = gvk
      · subst hg; simp [hmem]
      · simp only [List.mem_cons, hg, false_or]
    · by_cases hadd : dwAdd gvk = true
      · have hstep : (notifyLoop dwAdd reg (gvk :: rest)).1 =
            (notifyLoop dwAdd (insertUnique reg gvk) rest).1 := by
          simp [notifyLoop, hmem, hadd]
        rw [hstep, ih, insertUnique, if_neg hmem]
        by_cases hg : g = gvk
        · subst hg
          simp [hmem, hadd, List.mem_append]
        · simp only [List.mem_append, List.mem_cons, List.mem_singleton, hg,
            or_false, false_or]
          tauto
      · have hstep : (notifyLoop dwAdd reg (gvk :: rest)).1 =
            (notifyLoop dwAdd reg rest).1 := by
          simp [notifyLoop, hmem, hadd]
        rw [hstep, ih]
        by_cases hg : g = gvk
        · subst hg
          simp only [Bool.not_eq_true] at hadd
          simp [hadd]
        · simp only [List.mem_cons, hg, false_or]

/-- Membership in the `Add`-call log of one registration loop: `Add` is
invoked for a kind iff it is enumerated and was not registered at entry. -/
theorem notifyLoop_snd_mem (dwAdd : GroupVersionKind → Bool)
    (g : GroupVersionKind) (l : List GroupVersionKind) :
    ∀ registered : List GroupVersionKind,
      g ∈ (notifyLoop dwAdd registered l).2 ↔ g ∈ l ∧ g ∉ registered := by
  induction l with
  | nil => intro reg; simp [notifyLoop]
  | cons gvk rest ih =>
    intro reg
    by_cases hmem : gvk ∈ reg
    · rw [show notifyLoop dwAdd reg (gvk :: rest) = notifyLoop dwAdd reg rest by
        simp [notifyLoop, hmem]]
      rw [ih reg]
      by_cases hg : g = gvk
      · subst hg; simp [hmem]
      · simp only [List.mem_cons, hg, false_or]
    · by_cases hadd : dwAdd gvk = true
      · have hstep : (notifyLoop dwAdd reg (gvk :: rest)).2 =
            gvk :: (notifyLoop dwAdd (insertUnique reg gvk) rest).2 := by
          simp [notifyLoop, hmem, hadd]
        rw [hstep]
        by_cases hg : g = gvk
        · subst hg; simp [hmem]
        · simp only [List.mem_cons, hg, false_or]
          rw [ih, insertUnique, if_neg hmem]
          simp only [List.mem_append, List.mem_singleton, hg, or_false]
      · have hstep : (notifyLoop dwAdd reg (gvk :: rest)).2 =
            gvk :: (notifyLoop dwAdd reg rest).2 := by
          simp [notifyLoop, hmem, hadd]
        rw [hstep]
        by_cases hg : g = gvk
        · subst hg; simp [hmem]
        · simp only [List.mem_cons, hg, false_or]
          rw [ih]

/-- C1: for every Notify invocation and every kind in the unique-kind
enumeration of the object set, the external `Add` registration is invoked
exactly when the kind is not already registered; after the call the kind is
registered iff it was already registered or its `Add` succeeded (so a failed
`Add` leaves it unregistered, to be retried on a later Notify), and Notify
returns nil regardless of `Add` failures. -/
theorem notify_add_exactly_when_unregistered
    (dwAdd : GroupVersionKind → Bool) (registered : List GroupVersionKind)
    (dest : DeclarativeObject) (objs : List Object) (gvk : GroupVersionKind)
    (hg : gvk ∈ uniqueGroupVersionKind objs) :
    (watchAll.Notify dwAdd registered dest objs).1 = none ∧
    (gvk ∈ (watchAll.Notify dwAdd registered dest objs).2.2 ↔
      gvk ∉ registered) ∧
    (gvk ∈ (watchAll.Notify dwAdd registered dest objs).2.1 ↔
      (gvk ∈ registered ∨ dwAdd gvk = true)) := by
  refine ⟨rfl, ?_, ?_⟩
  · show gvk ∈ (notifyLoop dwAdd registered (uniqueGroupVersionKind objs)).2 ↔ _
    rw [notifyLoop_snd_mem]
    simp [hg]
  · show gvk ∈ (notifyLoop dwAdd registered (uniqueGroupVersionKind objs)).1 ↔ _
    rw [notifyLoop_fst_mem]
    constructor
    · rintro (h | ⟨_, h2, _⟩)
      · exact Or.inl h
      · exact Or.inr h2
    · intro h
      by_cases hr : gvk ∈ registered
      · exact Or.inl hr
      · rcases h with h | h
        · exact absurd h hr
        · exact Or.inr ⟨hg, h, hr⟩

/-- Witness for C1 at a concrete input. -/
theorem notify_add_exactly_when_unregistered_witness :
    gvkA ∈ uniqueGroupVersionKind [mkObject "" "v1" "A"] ∧
    ((watchAll.Notify (fun _ => true) [] ownerWithCommon [mkObject "" "v1" "A"]).1 = none ∧
      (gvkA ∈ (watchAll.Notify (fun _ => true) [] ownerWithCommon
          [mkObject "" "v1" "A"]).2.2 ↔ gvkA ∉ ([] : List GroupVersionKind)) ∧
      (gvkA ∈ (watchAll.Notify (fun _ => true) [] ownerWithCommon
          [mkObject "" "v1" "A"]).2.1 ↔
        (gvkA ∈ ([] : List GroupVersionKind) ∨ (fun _ => true) gvkA = true))) :=
  ⟨by decide, notify_add_exactly_when_unregistered _ _ _ _ _ (by decide)⟩

/-- The registered set only grows across a sequence of Notify invocations. -/
theorem runNotifies_mono (dwAdd : GroupVersionKind → Bool)
    (dest : DeclarativeObject) (sets : List (List Object)) :
    ∀ (registered : List GroupVersionKind) (g : GroupVersionKind),
      g ∈ registered → g ∈ runNotifies dwAdd dest sets registered := by
  induction sets with
  | nil => intro reg g h; exact h
  | cons objs rest ih =>
    intro reg g h
    simp only [runNotifies]
    apply ih
    show g ∈ (notifyLoop dwAdd reg (uniqueGroupVersionKind objs)).1
    rw [notifyLoop_fst_mem]
    exact Or.inl h

/-- C6: the registered-kind set is monotonically non-decreasing — a kind
registered before a Notify invocation is still registered after it, and
remains registered after any further sequence of Notify invocations,
whatever object sets they carry. -/
theorem registered_set_monotone (dwAdd : GroupVersionKind → Bool)
    (registered : List GroupVersionKind) (dest : DeclarativeObject)
    (objs : List Object) (sets : List (List Object)) (gvk : GroupVersionKind)
    (h : gvk ∈ registered) :
    gvk ∈ (watchAll.Notify dwAdd registered dest objs).2.1 ∧
    gvk ∈ runNotifies dwAdd dest sets registered := by
  constructor
  · show gvk ∈ (notifyLoop dwAdd registered (uniqueGroupVersionKind objs)).1
    rw [notifyLoop_fst_mem]
    exact Or.inl h
  · exact runNotifies_mono dwAdd dest sets registered gvk h

/-- Witness for C6 at a concrete input. -/
theorem registered_set_monotone_witness :
    gvkA ∈ [gvkA] ∧
    (gvkA ∈ (watchAll.Notify (fun _ => false) [gvkA] ownerWithCommon [dsObj]).2.1 ∧
      gvkA ∈ runNotifies (fun _ => false) ownerWithCommon [[dsObj], [stsObj]] [gvkA]) :=
  ⟨by decide, registered_set_monotone _ _ _ _ _ _ (by decide)⟩

/-- C9 counterexample: the registry's read-check-then-write sequence is not
protected by any mutual exclusion, so under an interleaving of two Notify
loops that together present the kinds A, B, A, C, both loops pass the
not-registered check for A before either performs the `Add`, and 4 external
registration calls are issued (A twice) instead of exactly 3. -/
theorem interleaved_notify_double_add :
    (runSched [true, false, true, false, true, true, false, false]
        ⟨[], []⟩ ⟨[gvkA, gvkB], false⟩ ⟨[gvkA, gvkC], false⟩).addCalls =
      [gvkA, gvkA, gvkB, gvkC] ∧
    (runSched [true, false, true, false, true, true, false, false]
        ⟨[], []⟩ ⟨[gvkA, gvkB], false⟩ ⟨[gvkA, gvkC], false⟩).addCalls.length = 4 ∧
    (runSched [true, false, true, false, true, true, false, false]
        ⟨[], []⟩ ⟨[gvkA, gvkB], false⟩ ⟨[gvkA, gvkC], false⟩).addCalls.count gvkA = 2 ∧
    (runSched [true, false, true, false, true, true, false, false]
        ⟨[], []⟩ ⟨[gvkA, gvkB], false⟩ ⟨[gvkA, gvkC], false⟩).registered =
      [gvkA, gvkB, gvkC] := by
  refine ⟨?_, ?_, ?_, ?_⟩ <;> decide

/-- C9 (amended): when the four materializations presenting kinds A, B, A, C
are processed sequentially (Notify invocations not interleaved), exactly 3
external registration calls are issued (A, B, C once each) and the final
registered set holds exactly the 3 distinct kinds ever seen. -/
theorem sequential_notify_exactly_three_adds :
    runNotifiesLog (fun _ => true) ownerWithCommon
        [[mkObject "" "v1" "A"], [mkObject "" "v1" "B"],
          [mkObject "" "v1" "A"], [mkObject "" "v1" "C"]] [] =
      ([gvkA, gvkB, gvkC], [gvkA, gvkB, gvkC]) ∧
    ([gvkA, gvkB, gvkC] : List GroupVersionKind).length = 3 := by
  refine ⟨by decide, rfl⟩

/-- C2: the unique-kind enumerations are not sorted — the `sort.Slice`
comparator in the source compares an element with itself, so it never orders
anything and the enumeration stays in map-iteration order.  With the objects
presented as StatefulSet then DaemonSet, both enumerations keep that order
although the DaemonSet identity precedes the StatefulSet identity in the
lexicographic order of the canonical string forms. -/
theorem unique_kind_enumeration_not_sorted :
    uniqueGroupVersionKind [stsObj, dsObj] =
      [⟨"apps", "v1", "StatefulSet"⟩, ⟨"apps", "v1", "DaemonSet"⟩] ∧
    gvkToString ⟨"apps", "v1", "DaemonSet"⟩ <
      gvkToString ⟨"apps", "v1", "StatefulSet"⟩ ∧
    ¬ List.Sorted (fun x y => gvkToString x ≤ gvkToString y)
        (uniqueGroupVersionKind [stsObj, dsObj]) ∧
    uniqueGroupKind [stsObj, dsObj] =
      [⟨"apps", "StatefulSet"⟩, ⟨"apps", "DaemonSet"⟩] ∧
    ¬ List.Sorted (fun x y => gkToString x ≤ gkToString y)
        (uniqueGroupKind [stsObj, dsObj]) := by
  have h1 : uniqueGroupVersionKind [stsObj, dsObj] =
      [⟨"apps", "v1", "StatefulSet"⟩, ⟨"apps", "v1", "DaemonSet"⟩] := by
    rw [uniqueGroupVersionKind_eq]; decide
  have h2 : uniqueGroupKind [stsObj, dsObj] =
      [⟨"apps", "StatefulSet"⟩, ⟨"apps", "DaemonSet"⟩] := by
    rw [uniqueGroupKind_eq]; decide
  refine ⟨h1, ?_, ?_, h2, ?_⟩
  · rw [String.lt_iff_toList_lt]; decide
  · rw [h1]
    simp only [List.Sorted, List.pairwise_cons, List.mem_singleton]
    intro h
    have := h.1 _ rfl
    rw [String.le_iff_toList_le] at this
    exact absurd this (by decide)
  · rw [h2]
    simp only [List.Sorted, List.pairwise_cons, List.mem_singleton]
    intro h
    have := h.1 _ rfl
    rw [String.le_iff_toList_le] at this
    exact absurd this (by decide)

/-- A list with no Application: the locating loop ends in `.zero` from an
empty accumulator and keeps an already-found Application. -/
theorem scanAppsAux_no_apps :
    ∀ (l : List Object) (idx : Nat), countApps l = 0 →
      scanAppsAux l idx none = .zero ∧
      ∀ (j : Nat) (a : Object), scanAppsAux l idx (some (j, a)) = .one j a := by
  intro l
  induction l with
  | nil => intro idx h; exact ⟨rfl, fun j a => rfl⟩
  | cons o rest ih =>
    intro idx h
    have ho : isApplication o = false := by
      by_cases hb : isApplication o
      · exfalso; simp [countApps, List.countP_cons, hb] at h
      · simpa using hb
    have hrest : countApps rest = 0 := by
      simpa [countApps, List.countP_cons, ho] using h
    refine ⟨?_, ?_⟩
    · simp only [scanAppsAux, ho, Bool.false_eq_true, if_false]
      exact (ih (idx + 1) hrest).1
    · intro j a
      simp only [scanAppsAux, ho, Bool.false_eq_true, if_false]
      exact (ih (idx + 1) hrest).2 j a

/-- Once an Application has been remembered, any further Application turns
the scan into `.multiple`. -/
theorem scanAppsAux_some_pos :
    ∀ (l : List Object) (idx j : Nat) (a : Object), 0 < countApps l →
      scanAppsAux l idx (some (j, a)) = .multiple := by
  intro l
  induction l with
  | nil => intro idx j a h; simp [countApps] at h
  | cons o rest ih =>
    intro idx j a h
    by_cases ho : isApplication o
    · simp [scanAppsAux, ho]
    · have hrest : 0 < countApps rest := by
        simpa [countApps, List.countP_cons, ho] using h
      simp only [scanAppsAux, ho, Bool.false_eq_true, if_false]
      exact ih (idx + 1) j a hrest

/-- Two or more Applications make the scan end in `.multiple`. -/
theorem scanAppsAux_two :
    ∀ (l : List Object) (idx : Nat), 2 ≤ countApps l →
      scanAppsAux l idx none = .multiple := by
  intro l
  induction l with
  | nil => intro idx h; simp [countApps] at h
  | cons o rest ih =>
    intro idx h
    by_cases ho : isApplication o
    · have hrest : 0 < countApps rest := by
        simp only [countApps, List.countP_cons, ho, if_true] at h
        simp only [countApps]
        omega
      simp only [scanAppsAux, ho, if_true]
      exact scanAppsAux_some_pos rest (idx + 1) idx o hrest
    · have hrest : 2 ≤ countApps rest := by
        simpa [countApps, List.countP_cons, ho] using h
      simp only [scanAppsAux, ho, Bool.false_eq_true, if_false]
      exact ih (idx + 1) hrest

/-- Exactly one Application makes the scan end in `.one` at its position. -/
theorem scanAppsAux_one :
    ∀ (l : List Object) (idx : Nat), countApps l = 1 →
      ∃ (k : Nat) (a : Object), scanAppsAux l idx none = .one (idx + k) a ∧
        l[k]? = some a ∧ isApplication a = true := by
  intro l
  induction l with
  | nil => intro idx h; simp [countApps] at h
  | cons o rest ih =>
    intro idx h
    by_cases ho : isApplication o
    · have hrest : countApps rest = 0 := by
        simp only [countApps, List.countP_cons, ho, if_true] at h
        simp only [countApps]
        omega
      refine ⟨0, o, ?_, by simp, ho⟩
      simp only [scanAppsAux, ho, if_true, Nat.add_zero]
      exact (scanAppsAux_no_apps rest (idx + 1) hrest).2 idx o
    · have hrest : countApps rest = 1 := by
        simpa [countApps, List.countP_cons, ho] using h
      obtain ⟨k, a, h1, h2, h3⟩ := ih (idx + 1) hrest
      refine ⟨k + 1, a, ?_, by simpa using h2, h3⟩
      simp only [scanAppsAux, ho, Bool.false_eq_true, if_false]
      rw [h1]
      congr 1
      omega

/-- With exactly one Application in the list, any two Application positions
coincide. -/
theorem countApps_one_unique :
    ∀ (l : List Object) (i j : Nat) (a b : Object), countApps l = 1 →
      l[i]? = some a → isApplication a = true →
      l[j]? = some b → isApplication b = true → i = j := by
  intro l
  induction l with
  | nil => intro i j a b h; simp [countApps] at h
  | cons o rest ih =>
    intro i j a b h ha hpa hb hpb
    by_cases ho : isApplication o
    · have hrest : countApps rest = 0 := by
        simp only [countApps, List.countP_cons, ho, if_true] at h
        simp only [countApps]
        omega
      have hz : ∀ (k : Nat) (c : Object), rest[k]? = some c →
          isApplication c = true → False := by
        intro k c hk hc
        have hmem : c ∈ rest := List.getElem?_mem hk
        have := (List.countP_eq_zero.mp hrest) c hmem
        exact absurd hc (by simpa using this)
      cases i with
      | zero =>
        cases j with
        | zero => rfl
        | succ j2 => exact absurd (hz j2 b (by simpa using hb) hpb) (fun x => x)
      | succ i2 => exact absurd (hz i2 a (by simpa using ha) hpa) (fun x => x)
    · cases i with
      | zero =>
        rw [List.getElem?_cons_zero] at ha
        cases ha
        exact absurd hpa (by simpa using ho)
      | succ i2 =>
        cases j with
        | zero =>
          rw [List.getElem?_cons_zero] at hb
          cases hb
          exact absurd hpb (by simpa using ho)
        | succ j2 =>
          have hrest : countApps rest = 1 := by
            simpa [countApps, List.countP_cons, ho] using h
          have := ih i2 j2 a b hrest (by simpa using ha) hpa (by simpa using hb) hpb
          omega

/-- Backward characterization: an Application position in a one-Application
list is where the scan ends. -/
theorem scanApps_one_of (l : List Object) (i : Nat) (a : Object)
    (h1 : countApps l = 1) (h2 : l[i]? = some a)
    (h3 : isApplication a = true) : scanApps l = .one i a := by
  obtain ⟨k, b, hs, hk, hb⟩ := scanAppsAux_one l 0 h1
  have hik : i = k := countApps_one_unique l i k a b h1 h2 h3 hk hb
  subst hik
  rw [h2] at hk
  cases hk
  simpa [scanApps] using hs

/-- A field write is visible at its own path. -/
theorem find?_setEntry (p : List String) (v : FieldValue) :
    ∀ fs : List (List String × FieldValue),
      (setEntry fs p v).find? (fun e => e.1 == p) = some (p, v) := by
  intro fs
  induction fs with
  | nil => simp [setEntry, List.find?]
  | cons e rest ih =>
    by_cases he : e.1 == p
    · simp only [setEntry, List.filter_cons, he, Bool.not_true, if_false]
      simp only [setEntry] at ih
      exact ih
    · simp only [setEntry, List.filter_cons, he] at ih ⊢
      simp only [Bool.not_false, if_true, List.cons_append, List.find?_cons, he]
      exact ih

/-- A field write does not change what is found at another path. -/
theorem find?_setEntry_other (p q : List String) (v : FieldValue)
    (hqp : ¬ q = p) :
    ∀ fs : List (List String × FieldValue),
      (setEntry fs p v).find? (fun e => e.1 == q) =
        fs.find? (fun e => e.1 == q) := by
  intro fs
  induction fs with
  | nil =>
    simp only [setEntry, List.filter_nil, List.nil_append, List.find?]
    have : (p == q) = false := by
      simpa using fun h => hqp h.symm
    simp [this]
  | cons e rest ih =>
    by_cases he : e.1 == p
    · have heq : (e.1 == q) = false := by
        have hp : e.1 = p := by simpa using he
        simpa [hp] using fun h => hqp h.symm
      simp only [setEntry, List.filter_cons, he, Bool.not_true, if_false] at ih ⊢
      rw [List.find?_cons, heq] at *
      simpa using ih
    · simp only [setEntry, List.filter_cons, he, Bool.not_false, if_true,
        List.cons_append] at ih ⊢
      rw [List.find?_cons, List.find?_cons]
      cases hq : (e.1 == q) with
      | true => rfl
      | false => exact ih

/-- Reading back the path just written. -/
theorem getNestedField_set_self (o : Object) (v : FieldValue)
    (p : List String) :
    (o.SetNestedFieldNoCopy v p).getNestedField p = some v := by
  unfold Object.SetNestedFieldNoCopy Object.getNestedField
  simp [find?_setEntry]

/-- Reading another path after a write. -/
theorem getNestedField_set_other (o : Object) (v : FieldValue)
    (p q : List String) (hqp : ¬ q = p) :
    (o.SetNestedFieldNoCopy v p).getNestedField q = o.getNestedField q := by
  unfold Object.SetNestedFieldNoCopy Object.getNestedField
  simp [find?_setEntry_other p q v hqp]

/-- C4 counterexample: an object set with zero Applications, handed to
TransformApplicationFromStatus together with an owner that does not
implement CommonObject, yields a non-nil error — not the nil return the
claim states for every owner. -/
theorem fromStatus_error_despite_zero_applications :
    countApps [] ≠ 1 ∧
    TransformApplicationFromStatus ownerNoCommon [] =
      (some "instance was not an addonsv1alpha1.CommonObject", []) :=
  ⟨by decide, rfl⟩

/-- C4 (amended): with an owner that implements CommonObject, both
application-sync transforms perform no mutation and return nil whenever the
object set does not hold exactly one Application; transformApplication does
so for every owner. -/
theorem app_sync_noop_when_not_exactly_one (inst : DeclarativeObject)
    (c : CommonObject) (lm : LabelMaker) (objs : List Object)
    (hc : inst.common = some c) (hn : countApps objs ≠ 1) :
    transformApplication inst objs lm = (none, objs) ∧
    TransformApplicationFromStatus inst objs = (none, objs) := by
  have hscan : scanApps objs = .zero ∨ scanApps objs = .multiple := by
    rcases Nat.lt_or_ge (countApps objs) 1 with h | h
    · left
      have h0 : countApps objs = 0 := by omega
      exact (scanAppsAux_no_apps objs 0 h0).1
    · right
      have h2 : 2 ≤ countApps objs := by omega
      exact scanAppsAux_two objs 0 h2
  constructor
  · unfold transformApplication
    rcases hscan with h | h <;> rw [h]
  · unfold TransformApplicationFromStatus
    rw [hc]
    rcases hscan with h | h <;> rw [h]

/-- Witness for C4's amended statement at a concrete input. -/
theorem app_sync_noop_when_not_exactly_one_witness :
    ownerWithCommon.common = some ⟨true, "1.0.0"⟩ ∧ countApps [] ≠ 1 ∧
    (transformApplication ownerWithCommon [] fixedLabels = (none, []) ∧
      TransformApplicationFromStatus ownerWithCommon [] = (none, [])) :=
  ⟨rfl, by decide,
    app_sync_noop_when_not_exactly_one ownerWithCommon ⟨true, "1.0.0"⟩
      fixedLabels [] rfl (by decide)⟩

/-- C10: when the owner does not implement CommonObject,
TransformApplicationFromStatus returns a non-nil error before inspecting the
object set, and the objects are returned unchanged. -/
theorem fromStatus_rejects_non_common_object (inst : DeclarativeObject)
    (objs : List Object) (h : inst.common = none) :
    (TransformApplicationFromStatus inst objs).1.isSome = true ∧
    (TransformApplicationFromStatus inst objs).2 = objs := by
  unfold TransformApplicationFromStatus
  rw [h]
  exact ⟨rfl, rfl⟩

/-- Witness for C10 at a concrete input. -/
theorem fromStatus_rejects_non_common_object_witness :
    ownerNoCommon.common = none ∧
    ((TransformApplicationFromStatus ownerNoCommon [appObj]).1.isSome = true ∧
      (TransformApplicationFromStatus ownerNoCommon [appObj]).2 = [appObj]) :=
  ⟨rfl, fromStatus_rejects_non_common_object ownerNoCommon [appObj] rfl⟩

/-- C3: at the failing input (one Application plus one Deployment) the
transform writes the value produced by uniqueGroupVersionKind — a list of
full GroupVersionKind tuples, version included and in map order — into
spec.componentGroupKinds, instead of the sorted GroupKind list the claim
describes; the selector overwrite does use the owner's label set, and the
defined-but-unused uniqueGroupKind would have produced the GroupKind list. -/
theorem transformApplication_stores_group_version_kinds :
    ((transformApplication ownerWithCommon [appObj, deployObj]
        fixedLabels).2.headD appObj).getNestedField
        ["spec", "componentGroupKinds"] =
      some (.gvkList [⟨"app.k8s.io", "v1beta1", "Application"⟩,
        ⟨"apps", "v1", "Deployment"⟩]) ∧
    ((transformApplication ownerWithCommon [appObj, deployObj]
        fixedLabels).2.headD appObj).getNestedField ["spec", "selector"] =
      some (.labelSelector [("k8s-app", "kubernetes-dashboard")]) ∧
    (transformApplication ownerWithCommon [appObj, deployObj]
        fixedLabels).1 = none ∧
    uniqueGroupKind [appObj, deployObj] =
      [⟨"app.k8s.io", "Application"⟩, ⟨"apps", "Deployment"⟩] := by
  refine ⟨?_, ?_, ?_, ?_⟩ <;> decide

/-- C7: with a CommonObject owner and exactly one Application in the object
set, TransformApplicationFromStatus succeeds and replaces exactly that
object by one whose spec.assemblyPhase is Succeeded when the owner's common
status is healthy and Pending otherwise, and whose spec.descriptor.version
is the owner's declared version. -/
theorem fromStatus_sets_phase_and_version (inst : DeclarativeObject)
    (c : CommonObject) (objs : List Object)
    (hc : inst.common = some c) (h1 : countApps objs = 1) :
    ∃ (i : Nat) (a b : Object), objs[i]? = some a ∧ isApplication a = true ∧
      TransformApplicationFromStatus inst objs = (none, objs.set i b) ∧
      b.getNestedField ["spec", "assemblyPhase"] =
        some (.str (if c.healthy then Succeeded else Pending)) ∧
      b.getNestedField ["spec", "descriptor", "version"] =
        some (.str c.version) := by
  obtain ⟨k, a, hs, hk, ha⟩ := scanAppsAux_one objs 0 h1
  have hscan : scanApps objs = .one k a := by simpa [scanApps] using hs
  refine ⟨k, a,
    (a.SetNestedField (.str c.version)
        ["spec", "descriptor", "version"]).SetNestedField
      (.str (if c.healthy then Succeeded else Pending)) ["spec", "assemblyPhase"],
    hk, ha, ?_, ?_, ?_⟩
  · unfold TransformApplicationFromStatus
    rw [hc, hscan]
  · exact getNestedField_set_self _ _ _
  · rw [Object.SetNestedField, getNestedField_set_other _ _ _ _ (by decide)]
    exact getNestedField_set_self _ _ _

/-- Witness for C7 at a concrete input. -/
theorem fromStatus_sets_phase_and_version_witness :
    ownerWithCommon.common = some ⟨true, "1.0.0"⟩ ∧
    countApps [appObj] = 1 ∧
    (∃ (i : Nat) (a b : Object), [appObj][i]? = some a ∧
      isApplication a = true ∧
      TransformApplicationFromStatus ownerWithCommon [appObj] =
        (none, [appObj].set i b) ∧
      b.getNestedField ["spec", "assemblyPhase"] =
        some (.str (if (true : Bool) then Succeeded else Pending)) ∧
      b.getNestedField ["spec", "descriptor", "version"] =
        some (.str "1.0.0")) :=
  ⟨rfl, by decide,
    fromStatus_sets_phase_and_version ownerWithCommon ⟨true, "1.0.0"⟩ [appObj]
      rfl (by decide)⟩

/-- C5: the image-registry rewrite maps image myrepo/foo/bar:v1 under
registry registry.example.com to registry.example.com/bar:v1 (the configured
registry prefixed to the last '/'-separated segment), and with both the
registry and the pull-secret configuration empty, applyImageRegistry changes
no field of any object. -/
theorem image_registry_rewrite_spec_examples :
    applyImageRegistry ownerWithCommon [deployObj] "registry.example.com" "" =
      (none,
        [{ deployObj with containers := [⟨"registry.example.com/bar:v1"⟩] }]) ∧
    ∀ (inst : DeclarativeObject) (objs : List Object),
      applyImageRegistry inst objs "" "" = (none, objs) := by
  constructor
  · decide
  · intro inst objs
    rfl

/-- Pointwise-equal functions map lists equally. -/
theorem map_pointwise_congr {α β : Type} (f g : α → β) (h : ∀ a, f a = g a) :
    ∀ l : List α, l.map f = l.map g := by
  intro l
  induction l with
  | nil => rfl
  | cons a rest ih => simp [List.map_cons, h a, ih]

/-- Mapping a pointwise-identity function is the identity. -/
theorem map_id_of_pointwise {α : Type} (f : α → α) (h : ∀ a, f a = a)
    (l : List α) : l.map f = l := by
  rw [map_pointwise_congr f id h l, List.map_id]

/-- A pointwise-idempotent function maps a list idempotently. -/
theorem map_idem_of_pointwise {α : Type} (f : α → α)
    (h : ∀ a, f (f a) = f a) (l : List α) :
    (l.map f).map f = l.map f := by
  rw [List.map_map]
  exact map_pointwise_congr (f ∘ f) f h l

/-- An index holding a value is inside the list. -/
theorem lt_length_of_getElem? {α : Type} :
    ∀ (l : List α) (i : Nat) (a : α), l[i]? = some a → i < l.length := by
  intro l
  induction l with
  | nil => intro i a h; simp at h
  | cons o rest ih =>
    intro i a h
    cases i with
    | zero => simp
    | succ i2 =>
      rw [List.getElem?_cons_succ] at h
      have := ih i2 a h
      simp
      omega

/-- Overwriting an index with the value it already holds changes nothing. -/
theorem set_getElem?_eq {α : Type} :
    ∀ (l : List α) (i : Nat) (x : α), l[i]? = some x → l.set i x = l := by
  intro l
  induction l with
  | nil => intro i x h; simp at h
  | cons o rest ih =>
    intro i x h
    cases i with
    | zero =>
      rw [List.getElem?_cons_zero] at h
      cases h
      rfl
    | succ i2 =>
      rw [List.getElem?_cons_succ] at h
      simp [List.set_cons_succ, ih i2 x h]

/-- `map` commutes with `set`. -/
theorem map_set_comm {α β : Type} (f : α → β) :
    ∀ (l : List α) (i : Nat) (b : α),
      (l.set i b).map f = (l.map f).set i (f b) := by
  intro l
  induction l with
  | nil => intro i b; rfl
  | cons o rest ih =>
    intro i b
    cases i with
    | zero => rfl
    | succ i2 => simp [List.set_cons_succ, List.map_cons, ih i2 b]

/-- Replacing an element by one with the same predicate value keeps the
predicate count. -/
theorem countP_set_eq {α : Type} (p : α → Bool) :
    ∀ (l : List α) (i : Nat) (a b : α), l[i]? = some a → p b = p a →
      (l.set i b).countP p = l.countP p := by
  intro l
  induction l with
  | nil => intro i a b h; simp at h
  | cons o rest ih =>
    intro i a b h hp
    cases i with
    | zero =>
      rw [List.getElem?_cons_zero] at h
      cases h
      simp [List.set_cons_zero, List.countP_cons, hp]
    | succ i2 =>
      rw [List.getElem?_cons_succ] at h
      simp [List.set_cons_succ, List.countP_cons, ih i2 a b h hp]

/-- The last segment after appending a slash-separated suffix is the last
segment of the suffix. -/
theorem lastSegmentAux_append_slash (a b : List Char) :
    lastSegmentAux (a ++ '/' :: b) = lastSegmentAux b := by
  unfold lastSegmentAux
  rw [List.foldl_append, List.foldl_cons]
  simp

/-- The accumulator of the last-segment fold never contains a slash. -/
theorem lastSegmentAux_fold_no_slash :
    ∀ (cs acc : List Char), ('/' : Char) ∉ acc →
      ('/' : Char) ∉
        cs.foldl (fun acc c => if c = '/' then [] else acc ++ [c]) acc := by
  intro cs
  induction cs with
  | nil => intro acc h; exact h
  | cons c rest ih =>
    intro acc h
    rw [List.foldl_cons]
    by_cases hc : c = '/'
    · simp only [hc, if_pos rfl]
      exact ih [] (by simp)
    · simp only [if_neg hc]
      refine ih (acc ++ [c]) ?_
      intro hmem
      rcases List.mem_append.mp hmem with h3 | h3
      · exact h h3
      · simp at h3
        exact hc h3.symm

/-- The last segment contains no slash. -/
theorem lastSegmentAux_no_slash (cs : List Char) :
    ('/' : Char) ∉ lastSegmentAux cs :=
  lastSegmentAux_fold_no_slash cs [] (by simp)

/-- On slash-free input the last-segment fold appends the input to the
accumulator. -/
theorem lastSegmentAux_fold_of_no_slash :
    ∀ (cs acc : List Char), ('/' : Char) ∉ cs →
      cs.foldl (fun acc c => if c = '/' then [] else acc ++ [c]) acc =
        acc ++ cs := by
  intro cs
  induction cs with
  | nil => intro acc h; simp
  | cons c rest ih =>
    intro acc h
    have hc : ¬ c = '/' := by
      intro he
      exact h (by simp [he])
    rw [List.foldl_cons, if_neg hc, ih (acc ++ [c]) (by
      intro hm
      exact h (List.mem_cons_of_mem c hm))]
    simp

/-- A slash-free list is its own last segment. -/
theorem lastSegmentAux_of_no_slash (cs : List Char)
    (h : ('/' : Char) ∉ cs) : lastSegmentAux cs = cs := by
  unfold lastSegmentAux
  rw [lastSegmentAux_fold_of_no_slash cs [] h]
  simp

/-- Taking the last segment twice (after prefixing a registry and a slash)
gives the same segment: the rewrite of an already rewritten image reference
keeps it unchanged. -/
theorem lastSegment_after_registry (r x : String) :
    lastSegment (r ++ "/" ++ lastSegment x) = lastSegment x := by
  unfold lastSegment
  have hdata : (r ++ "/" ++ String.mk (lastSegmentAux x.data)).data =
      r.data ++ '/' :: lastSegmentAux x.data := by
    rw [String.data_append, String.data_append]
    simp
  rw [hdata, lastSegmentAux_append_slash,
    lastSegmentAux_of_no_slash _ (lastSegmentAux_no_slash x.data)]

/-- The per-container image rewrite is idempotent. -/
theorem applyPrivateRegistryToContainer_idem (r : String) (c : Container) :
    applyPrivateRegistryToContainer r (applyPrivateRegistryToContainer r c) =
      applyPrivateRegistryToContainer r c := by
  unfold applyPrivateRegistryToContainer
  simp only [Container.mk.injEq]
  rw [lastSegment_after_registry r c.image]

/-- Explicit record form of the per-object image rewrite. -/
theorem applyImageRegistryToObject_eq (r s : String) (o : Object) :
    applyImageRegistryToObject r s o =
      if o.kind == "Deployment" || o.kind == "DaemonSet" ||
          o.kind == "StatefulSet" || o.kind == "Job" ||
          o.kind == "CronJob" then
        { o with
          containers :=
            if r != "" then o.containers.map (applyPrivateRegistryToContainer r)
            else o.containers,
          imagePullSecrets := if s != "" then [s] else o.imagePullSecrets }
      else o := by
  unfold applyImageRegistryToObject Object.MutateContainers Object.MutatePodSpec
    applyImagePullSecret
  split
  · cases hr : (r != "") <;> cases hs : (s != "") <;> simp [hr, hs]
  · rfl

/-- A field write preserves the identity components. -/
theorem SetNestedFieldNoCopy_kind (o : Object) (v : FieldValue)
    (p : List String) : (o.SetNestedFieldNoCopy v p).kind = o.kind := rfl

/-- A field write preserves the `GroupVersionKind`. -/
theorem SetNestedFieldNoCopy_gvk (o : Object) (v : FieldValue)
    (p : List String) :
    (o.SetNestedFieldNoCopy v p).groupVersionKind = o.groupVersionKind := rfl

/-- A field write preserves the Application check. -/
theorem isApplication_SetNestedFieldNoCopy (o : Object) (v : FieldValue)
    (p : List String) :
    isApplication (o.SetNestedFieldNoCopy v p) = isApplication o := rfl

/-- The image rewrite preserves the `GroupVersionKind`. -/
theorem applyImageRegistryToObject_gvk (r s : String) (o : Object) :
    (applyImageRegistryToObject r s o).groupVersionKind =
      o.groupVersionKind := by
  rw [applyImageRegistryToObject_eq]
  split <;> rfl

/-- The image rewrite preserves the Application check. -/
theorem isApplication_applyImageRegistryToObject (r s : String) (o : Object) :
    isApplication (applyImageRegistryToObject r s o) = isApplication o := by
  rw [applyImageRegistryToObject_eq]
  split <;> rfl

/-- The per-object image rewrite is idempotent. -/
theorem applyImageRegistryToObject_idem (r s : String) (o : Object) :
    applyImageRegistryToObject r s (applyImageRegistryToObject r s o) =
      applyImageRegistryToObject r s o := by
  rw [applyImageRegistryToObject_eq r s o]
  split
  · rename_i hcond
    rw [applyImageRegistryToObject_eq]
    cases o with
    | mk g ver k n nm fs cs ips =>
      simp only at hcond ⊢
      rw [if_pos hcond]
      cases hr : (r != "") <;> cases hs : (s != "") <;>
        simp [hr, hs, map_idem_of_pointwise (applyPrivateRegistryToContainer r)
          (applyPrivateRegistryToContainer_idem r)]
  · rename_i hcond
    rw [applyImageRegistryToObject_eq]
    cases o with
    | mk g ver k n nm fs cs ips =>
      simp only at hcond ⊢
      rw [if_neg hcond]

/-- The image rewrite commutes with field writes (they touch disjoint parts
of the object). -/
theorem applyImageRegistryToObject_setNested_comm (r s : String) (o : Object)
    (v : FieldValue) (p : List String) :
    applyImageRegistryToObject r s (o.SetNestedFieldNoCopy v p) =
      (applyImageRegistryToObject r s o).SetNestedFieldNoCopy v p := by
  rw [applyImageRegistryToObject_eq, applyImageRegistryToObject_eq]
  cases o with
  | mk g ver k n nm fs cs ips =>
    simp only [Object.SetNestedFieldNoCopy]
    by_cases hcond : (k == "Deployment" || k == "DaemonSet" ||
        k == "StatefulSet" || k == "Job" || k == "CronJob")
    · simp [hcond]
    · simp [hcond]

/-- With neither registry nor secret configured, the per-object rewrite is
the identity. -/
theorem applyImageRegistryToObject_id_of_empty (o : Object) :
    applyImageRegistryToObject "" "" o = o := by
  rw [applyImageRegistryToObject_eq]
  split <;> rfl

/-- `applyImageRegistry` never fails and acts as the per-object rewrite on
every manifest item. -/
theorem applyImageRegistry_eq (inst : DeclarativeObject) (objs : List Object)
    (r s : String) :
    applyImageRegistry inst objs r s =
      (none, objs.map (applyImageRegistryToObject r s)) := by
  unfold applyImageRegistry
  split
  · rename_i hguard
    have hr : r = "" := by
      have := (Bool.and_eq_true _ _).mp hguard
      simpa using this.1
    have hs : s = "" := by
      have := (Bool.and_eq_true _ _).mp hguard
      simpa using this.2
    subst hr
    subst hs
    rw [map_id_of_pointwise _ applyImageRegistryToObject_id_of_empty]
  · rfl

/-- Two filters commute. -/
theorem filter_swap {α : Type} (p q : α → Bool) :
    ∀ l : List α, (l.filter p).filter q = (l.filter q).filter p := by
  intro l
  induction l with
  | nil => rfl
  | cons a rest ih =>
    cases hp : p a <;> cases hq : q a <;>
      simp [List.filter_cons, hp, hq, ih]

/-- Filtering twice by the same predicate filters once. -/
theorem filter_self_idem {α : Type} (p : α → Bool) :
    ∀ l : List α, (l.filter p).filter p = l.filter p := by
  intro l
  induction l with
  | nil => rfl
  | cons a rest ih =>
    cases hp : p a <;> simp [List.filter_cons, hp, ih]

/-- Applying the same four filters again changes nothing. -/
theorem filter4_idem {α : Type} (q1 q2 q3 q4 : α → Bool) (l : List α) :
    (((((((l.filter q1).filter q2).filter q3).filter q4).filter
      q1).filter q2).filter q3).filter q4 =
      (((l.filter q1).filter q2).filter q3).filter q4 := by
  have h1 : ∀ m : List α,
      ((((m.filter q1).filter q2).filter q3).filter q4).filter q1 =
        (((m.filter q1).filter q2).filter q3).filter q4 := by
    intro m
    rw [filter_swap q4 q1, filter_swap q3 q1, filter_swap q2 q1,
      filter_self_idem q1]
  have h2 : ∀ m : List α,
      ((((m.filter q1).filter q2).filter q3).filter q4).filter q2 =
        (((m.filter q1).filter q2).filter q3).filter q4 := by
    intro m
    rw [filter_swap q4 q2, filter_swap q3 q2, filter_self_idem q2]
  have h3 : ∀ m : List α,
      ((((m.filter q1).filter q2).filter q3).filter q4).filter q3 =
        (((m.filter q1).filter q2).filter q3).filter q4 := by
    intro m
    rw [filter_swap q4 q3, filter_self_idem q3]
  have h4 : ∀ m : List α,
      ((((m.filter q1).filter q2).filter q3).filter q4).filter q4 =
        (((m.filter q1).filter q2).filter q3).filter q4 := by
    intro m
    rw [filter_self_idem q4]
  rw [h1 l, h2 l, h3 l, h4 l]

/-- Four successive writes at pairwise-distinct paths in explicit
filter-and-append form. -/
theorem setEntry_chain4 (p1 p2 p3 p4 : List String)
    (v1 v2 v3 v4 : FieldValue) (h12 : p1 ≠ p2) (h13 : p1 ≠ p3)
    (h14 : p1 ≠ p4) (h23 : p2 ≠ p3) (h24 : p2 ≠ p4) (h34 : p3 ≠ p4)
    (fs : List (List String × FieldValue)) :
    setEntry (setEntry (setEntry (setEntry fs p1 v1) p2 v2) p3 v3) p4 v4 =
      ((((fs.filter (fun e => !(e.1 == p1))).filter
          (fun e => !(e.1 == p2))).filter
          (fun e => !(e.1 == p3))).filter (fun e => !(e.1 == p4))) ++
        [(p1, v1), (p2, v2), (p3, v3), (p4, v4)] := by
  have c12 : (p1 == p2) = false := beq_eq_false_iff_ne.mpr h12
  have c13 : (p1 == p3) = false := beq_eq_false_iff_ne.mpr h13
  have c14 : (p1 == p4) = false := beq_eq_false_iff_ne.mpr h14
  have c23 : (p2 == p3) = false := beq_eq_false_iff_ne.mpr h23
  have c24 : (p2 == p4) = false := beq_eq_false_iff_ne.mpr h24
  have c34 : (p3 == p4) = false := beq_eq_false_iff_ne.mpr h34
  simp only [setEntry, List.filter_append, List.filter_cons, List.filter_nil,
    c12, c13, c14, c23, c24, c34, Bool.not_false, if_true, List.cons_append,
    List.nil_append, List.append_assoc]

/-- Re-running four distinct-path writes with the same values changes
nothing. -/
theorem setEntry_seq4_idem (p1 p2 p3 p4 : List String)
    (v1 v2 v3 v4 : FieldValue) (h12 : p1 ≠ p2) (h13 : p1 ≠ p3)
    (h14 : p1 ≠ p4) (h23 : p2 ≠ p3) (h24 : p2 ≠ p4) (h34 : p3 ≠ p4)
    (fs : List (List String × FieldValue)) :
    setEntry (setEntry (setEntry (setEntry (setEntry (setEntry (setEntry
        (setEntry fs p1 v1) p2 v2) p3 v3) p4 v4) p1 v1) p2 v2) p3 v3)
      p4 v4 =
      setEntry (setEntry (setEntry (setEntry fs p1 v1) p2 v2) p3 v3)
        p4 v4 := by
  have c11 : (p1 == p1) = true := beq_self_eq_true p1
  have c22 : (p2 == p2) = true := beq_self_eq_true p2
  have c33 : (p3 == p3) = true := beq_self_eq_true p3
  have c44 : (p4 == p4) = true := beq_self_eq_true p4
  have c21 : (p2 == p1) = false := beq_eq_false_iff_ne.mpr h12.symm
  have c31 : (p3 == p1) = false := beq_eq_false_iff_ne.mpr h13.symm
  have c41 : (p4 == p1) = false := beq_eq_false_iff_ne.mpr h14.symm
  have c32 : (p3 == p2) = false := beq_eq_false_iff_ne.mpr h23.symm
  have c42 : (p4 == p2) = false := beq_eq_false_iff_ne.mpr h24.symm
  have c43 : (p4 == p3) = false := beq_eq_false_iff_ne.mpr h34.symm
  rw [setEntry_chain4 p1 p2 p3 p4 v1 v2 v3 v4 h12 h13 h14 h23 h24 h34,
    setEntry_chain4 p1 p2 p3 p4 v1 v2 v3 v4 h12 h13 h14 h23 h24 h34]
  simp only [List.filter_append]
  rw [filter4_idem]
  simp [List.filter_cons, c11, c22, c33, c44, c21, c31, c41, c32, c42, c43]

/-- Re-running the four application-sync field writes on an object changes
nothing. -/
theorem SetNestedFieldNoCopy_seq4_idem (o : Object)
    (p1 p2 p3 p4 : List String) (v1 v2 v3 v4 : FieldValue)
    (h12 : p1 ≠ p2) (h13 : p1 ≠ p3) (h14 : p1 ≠ p4) (h23 : p2 ≠ p3)
    (h24 : p2 ≠ p4) (h34 : p3 ≠ p4) :
    (((((((o.SetNestedFieldNoCopy v1 p1).SetNestedFieldNoCopy v2
        p2).SetNestedFieldNoCopy v3 p3).SetNestedFieldNoCopy v4
        p4).SetNestedFieldNoCopy v1 p1).SetNestedFieldNoCopy v2
        p2).SetNestedFieldNoCopy v3 p3).SetNestedFieldNoCopy v4 p4 =
      (((o.SetNestedFieldNoCopy v1 p1).SetNestedFieldNoCopy v2
        p2).SetNestedFieldNoCopy v3 p3).SetNestedFieldNoCopy v4 p4 := by
  cases o with
  | mk g ver k n nm fs cs ips =>
    simp only [Object.SetNestedFieldNoCopy, Object.mk.injEq, true_and,
      and_true]
    exact setEntry_seq4_idem p1 p2 p3 p4 v1 v2 v3 v4 h12 h13 h14 h23 h24
      h34 fs

/-- Reading the index just overwritten. -/
theorem getElem?_set_self {α : Type} (l : List α) (i : Nat) (b : α)
    (h : i < l.length) : (l.set i b)[i]? = some b := by
  rw [List.getElem?_set]
  simp [h]



/-- Instantiating the enumeration parameter with the deterministic model's
enumeration gives back `transformApplication`. -/
theorem transformApplicationWithEnum_enum (inst : DeclarativeObject)
    (objects : List Object) (labelMaker : LabelMaker) :
    transformApplicationWithEnum (uniqueGroupVersionKind objects) inst
      objects labelMaker = transformApplication inst objects labelMaker :=
  rfl

/-- Assembling the parameterized pipeline from the results of its three
stages. -/
theorem pipelineWithEnum_of_parts (enum : List GroupVersionKind)
    (inst : DeclarativeObject) (lm : LabelMaker) (r s : String)
    (objs X Y Z : List Object)
    (h1 : applyImageRegistry inst objs r s = (none, X))
    (h2 : transformApplicationWithEnum enum inst X lm = (none, Y))
    (h3 : TransformApplicationFromStatus inst Y = (none, Z)) :
    objectTransformPipelineWithEnum enum inst lm r s objs = (none, Z) := by
  simp only [objectTransformPipelineWithEnum, h1, h2, h3]

/-- Both application-sync transforms skip object sets without exactly one
Application, whatever enumeration the map iteration produced. -/
theorem appSyncEnum_pair_noop (enum : List GroupVersionKind)
    (inst : DeclarativeObject) (c : CommonObject) (lm : LabelMaker)
    (objs : List Object) (hc : inst.common = some c)
    (hn : countApps objs ≠ 1) :
    transformApplicationWithEnum enum inst objs lm = (none, objs) ∧
    TransformApplicationFromStatus inst objs = (none, objs) := by
  have hscan : scanApps objs = .zero ∨ scanApps objs = .multiple := by
    rcases Nat.lt_or_ge (countApps objs) 1 with h | h
    · exact Or.inl ((scanAppsAux_no_apps objs 0 (by omega)).1)
    · exact Or.inr (scanAppsAux_two objs 0 (by omega))
  constructor
  · unfold transformApplicationWithEnum
    rcases hscan with h | h <;> rw [h]
  · unfold TransformApplicationFromStatus
    rw [hc]
    rcases hscan with h | h <;> rw [h]

/-- With exactly one Application at position `k`, the two application-sync
transforms rewrite exactly that object with the four field writes (selector,
component kinds, version, assembly phase) in order, storing the given
enumeration into the component-kinds field. -/
theorem appSyncEnum_pair_one (enum : List GroupVersionKind)
    (inst : DeclarativeObject) (c : CommonObject) (lm : LabelMaker)
    (A : List Object) (k : Nat) (a1 : Object) (hc : inst.common = some c)
    (h1A : countApps A = 1) (hkA : A[k]? = some a1)
    (haA : isApplication a1 = true) :
    transformApplicationWithEnum enum inst A lm =
      (none, A.set k
        ((a1.SetNestedFieldNoCopy (.labelSelector (lm inst))
          ["spec", "selector"]).SetNestedFieldNoCopy
          (.gvkList enum) ["spec", "componentGroupKinds"])) ∧
    TransformApplicationFromStatus inst
        (A.set k
          ((a1.SetNestedFieldNoCopy (.labelSelector (lm inst))
            ["spec", "selector"]).SetNestedFieldNoCopy
            (.gvkList enum) ["spec", "componentGroupKinds"])) =
      (none, A.set k
        ((((a1.SetNestedFieldNoCopy (.labelSelector (lm inst))
          ["spec", "selector"]).SetNestedFieldNoCopy
          (.gvkList enum)
          ["spec", "componentGroupKinds"]).SetNestedFieldNoCopy
          (.str c.version)
          ["spec", "descriptor", "version"]).SetNestedFieldNoCopy
          (.str (if c.healthy then Succeeded else Pending))
          ["spec", "assemblyPhase"])) := by
  have hscanA : scanApps A = .one k a1 := scanApps_one_of A k a1 h1A hkA haA
  have hklen : k < A.length := lt_length_of_getElem? A k a1 hkA
  have htr : transformApplicationWithEnum enum inst A lm =
      (none, A.set k
        ((a1.SetNestedFieldNoCopy (.labelSelector (lm inst))
          ["spec", "selector"]).SetNestedFieldNoCopy
          (.gvkList enum) ["spec", "componentGroupKinds"])) := by
    unfold transformApplicationWithEnum
    rw [hscanA]
  refine ⟨htr, ?_⟩
  have hcountB : countApps (A.set k
      ((a1.SetNestedFieldNoCopy (.labelSelector (lm inst))
        ["spec", "selector"]).SetNestedFieldNoCopy
        (.gvkList enum) ["spec", "componentGroupKinds"])) = 1 := by
    unfold countApps
    rw [countP_set_eq isApplication A k a1
      ((a1.SetNestedFieldNoCopy (.labelSelector (lm inst))
        ["spec", "selector"]).SetNestedFieldNoCopy
        (.gvkList enum) ["spec", "componentGroupKinds"]) hkA rfl]
    exact h1A
  have hBk : (A.set k
      ((a1.SetNestedFieldNoCopy (.labelSelector (lm inst))
        ["spec", "selector"]).SetNestedFieldNoCopy
        (.gvkList enum) ["spec", "componentGroupKinds"]))[k]? = some
      ((a1.SetNestedFieldNoCopy (.labelSelector (lm inst))
        ["spec", "selector"]).SetNestedFieldNoCopy
        (.gvkList enum) ["spec", "componentGroupKinds"]) :=
    getElem?_set_self A k _ hklen
  have hscanB : scanApps (A.set k
      ((a1.SetNestedFieldNoCopy (.labelSelector (lm inst))
        ["spec", "selector"]).SetNestedFieldNoCopy
        (.gvkList enum) ["spec", "componentGroupKinds"])) = .one k
      ((a1.SetNestedFieldNoCopy (.labelSelector (lm inst))
        ["spec", "selector"]).SetNestedFieldNoCopy
        (.gvkList enum) ["spec", "componentGroupKinds"]) :=
    scanApps_one_of _ k _ hcountB hBk haA
  simp only [TransformApplicationFromStatus, hc, hscanB,
    Object.SetNestedField]
  rw [List.set_set]

/-- C8 counterexample: with the empty image-registry configuration (a valid
fixed configuration, under which the image stage provably changes nothing),
one Application and one Deployment, the two enumeration orders used below
are both possible kinds-map iteration orders for the respective runs; when
the first run enumerates Application before Deployment and the second run
enumerates Deployment before Application, applying the transform stage
twice yields a different object set than applying it once —
`spec.componentGroupKinds` holds the same kinds in a different order — so
the claim's "exactly the same object set contents" fails on the program. -/
theorem transform_stage_not_idempotent_across_map_orders :
    IsMapIterationOrder [appObj, deployObj]
      [⟨"app.k8s.io", "v1beta1", "Application"⟩,
        ⟨"apps", "v1", "Deployment"⟩] ∧
    IsMapIterationOrder
      (objectTransformPipelineWithEnum
        [⟨"app.k8s.io", "v1beta1", "Application"⟩,
          ⟨"apps", "v1", "Deployment"⟩]
        ownerWithCommon fixedLabels "" "" [appObj, deployObj]).2
      [⟨"apps", "v1", "Deployment"⟩,
        ⟨"app.k8s.io", "v1beta1", "Application"⟩] ∧
    objectTransformPipelineWithEnum
        [⟨"apps", "v1", "Deployment"⟩,
          ⟨"app.k8s.io", "v1beta1", "Application"⟩]
        ownerWithCommon fixedLabels "" ""
        (objectTransformPipelineWithEnum
          [⟨"app.k8s.io", "v1beta1", "Application"⟩,
            ⟨"apps", "v1", "Deployment"⟩]
          ownerWithCommon fixedLabels "" "" [appObj, deployObj]).2 ≠
      objectTransformPipelineWithEnum
        [⟨"app.k8s.io", "v1beta1", "Application"⟩,
          ⟨"apps", "v1", "Deployment"⟩]
        ownerWithCommon fixedLabels "" "" [appObj, deployObj] ∧
    (((objectTransformPipelineWithEnum
        [⟨"app.k8s.io", "v1beta1", "Application"⟩,
          ⟨"apps", "v1", "Deployment"⟩]
        ownerWithCommon fixedLabels "" "" [appObj, deployObj]).2.headD
        appObj).getNestedField ["spec", "componentGroupKinds"] =
      some (.gvkList [⟨"app.k8s.io", "v1beta1", "Application"⟩,
        ⟨"apps", "v1", "Deployment"⟩])) ∧
    (((objectTransformPipelineWithEnum
        [⟨"apps", "v1", "Deployment"⟩,
          ⟨"app.k8s.io", "v1beta1", "Application"⟩]
        ownerWithCommon fixedLabels "" ""
        (objectTransformPipelineWithEnum
          [⟨"app.k8s.io", "v1beta1", "Application"⟩,
            ⟨"apps", "v1", "Deployment"⟩]
          ownerWithCommon fixedLabels "" "" [appObj, deployObj]).2).2.headD
        appObj).getNestedField ["spec", "componentGroupKinds"] =
      some (.gvkList [⟨"apps", "v1", "Deployment"⟩,
        ⟨"app.k8s.io", "v1beta1", "Application"⟩])) := by
  unfold IsMapIterationOrder
  refine ⟨?_, ?_, ?_, ?_, ?_⟩ <;> decide

/-- C8 (amended): with an owner implementing CommonObject and a fixed
configuration, running the built-in object transform stage (image-registry
rewrite, pull-secret injection, application sync) twice in succession
yields exactly the object set of a single run and reports no error,
provided both runs enumerate the kinds map in the same order (the `enum`
parameter); the counterexample shows the proviso is necessary. -/
theorem object_transforms_idempotent_fixed_enum
    (enum : List GroupVersionKind) (inst : DeclarativeObject)
    (c : CommonObject) (lm : LabelMaker) (registry secret : String)
    (objs : List Object) (hc : inst.common = some c) :
    (objectTransformPipelineWithEnum enum inst lm registry secret objs).1 =
      none ∧
    objectTransformPipelineWithEnum enum inst lm registry secret
        (objectTransformPipelineWithEnum enum inst lm registry secret
          objs).2 =
      objectTransformPipelineWithEnum enum inst lm registry secret objs := by
  have hA : applyImageRegistry inst objs registry secret =
      (none, objs.map (applyImageRegistryToObject registry secret)) :=
    applyImageRegistry_eq inst objs registry secret
  have hmapfA :
      (objs.map (applyImageRegistryToObject registry secret)).map
        (applyImageRegistryToObject registry secret) =
      objs.map (applyImageRegistryToObject registry secret) :=
    map_idem_of_pointwise _ (applyImageRegistryToObject_idem registry secret)
      objs
  have hA2 : applyImageRegistry inst
      (objs.map (applyImageRegistryToObject registry secret)) registry
      secret =
      (none, objs.map (applyImageRegistryToObject registry secret)) := by
    rw [applyImageRegistry_eq, hmapfA]
  have hAcount :
      countApps (objs.map (applyImageRegistryToObject registry secret)) =
        countApps objs := by
    unfold countApps
    rw [List.countP_map]
    exact List.countP_congr (fun o _ => by
      simp only [Function.comp_apply,
        isApplication_applyImageRegistryToObject])
  by_cases h1 : countApps objs = 1
  · have h1A : countApps
        (objs.map (applyImageRegistryToObject registry secret)) = 1 := by
      rw [hAcount]; exact h1
    obtain ⟨k, a1, hsA, hkA, haA⟩ :=
      scanAppsAux_one (objs.map (applyImageRegistryToObject registry secret))
        0 h1A
    have hklen : k <
        (objs.map (applyImageRegistryToObject registry secret)).length :=
      lt_length_of_getElem? _ k a1 hkA
    have hpair1 := appSyncEnum_pair_one enum inst c lm
      (objs.map (applyImageRegistryToObject registry secret)) k a1 hc h1A
      hkA haA
    have hpipe1 := pipelineWithEnum_of_parts enum inst lm registry secret
      objs _ _ _ hA hpair1.1 hpair1.2
    have hfix : applyImageRegistryToObject registry secret a1 = a1 := by
      have h := hkA
      rw [List.getElem?_map] at h
      obtain ⟨a0, ha0, hfa0⟩ := Option.map_eq_some'.mp h
      rw [← hfa0]
      exact applyImageRegistryToObject_idem registry secret a0
    have hfb2 : applyImageRegistryToObject registry secret
        ((((a1.SetNestedFieldNoCopy (.labelSelector (lm inst))
          ["spec", "selector"]).SetNestedFieldNoCopy
          (.gvkList enum)
          ["spec", "componentGroupKinds"]).SetNestedFieldNoCopy
          (.str c.version)
          ["spec", "descriptor", "version"]).SetNestedFieldNoCopy
          (.str (if c.healthy then Succeeded else Pending))
          ["spec", "assemblyPhase"]) =
        ((((a1.SetNestedFieldNoCopy (.labelSelector (lm inst))
          ["spec", "selector"]).SetNestedFieldNoCopy
          (.gvkList enum)
          ["spec", "componentGroupKinds"]).SetNestedFieldNoCopy
          (.str c.version)
          ["spec", "descriptor", "version"]).SetNestedFieldNoCopy
          (.str (if c.healthy then Succeeded else Pending))
          ["spec", "assemblyPhase"]) := by
      rw [applyImageRegistryToObject_setNested_comm,
        applyImageRegistryToObject_setNested_comm,
        applyImageRegistryToObject_setNested_comm,
        applyImageRegistryToObject_setNested_comm, hfix]
    have hmapC :
        ((objs.map (applyImageRegistryToObject registry secret)).set k
        ((((a1.SetNestedFieldNoCopy (.labelSelector (lm inst))
          ["spec", "selector"]).SetNestedFieldNoCopy
          (.gvkList enum)
          ["spec", "componentGroupKinds"]).SetNestedFieldNoCopy
          (.str c.version)
          ["spec", "descriptor", "version"]).SetNestedFieldNoCopy
          (.str (if c.healthy then Succeeded else Pending))
          ["spec", "assemblyPhase"])).map
          (applyImageRegistryToObject registry secret) =
        ((objs.map (applyImageRegistryToObject registry secret)).set k
        ((((a1.SetNestedFieldNoCopy (.labelSelector (lm inst))
          ["spec", "selector"]).SetNestedFieldNoCopy
          (.gvkList enum)
          ["spec", "componentGroupKinds"]).SetNestedFieldNoCopy
          (.str c.version)
          ["spec", "descriptor", "version"]).SetNestedFieldNoCopy
          (.str (if c.healthy then Succeeded else Pending))
          ["spec", "assemblyPhase"])) := by
      rw [map_set_comm, hmapfA, hfb2]
    have hA2C : applyImageRegistry inst
        ((objs.map (applyImageRegistryToObject registry secret)).set k
        ((((a1.SetNestedFieldNoCopy (.labelSelector (lm inst))
          ["spec", "selector"]).SetNestedFieldNoCopy
          (.gvkList enum)
          ["spec", "componentGroupKinds"]).SetNestedFieldNoCopy
          (.str c.version)
          ["spec", "descriptor", "version"]).SetNestedFieldNoCopy
          (.str (if c.healthy then Succeeded else Pending))
          ["spec", "assemblyPhase"])) registry secret =
        (none, ((objs.map (applyImageRegistryToObject registry secret)).set k
        ((((a1.SetNestedFieldNoCopy (.labelSelector (lm inst))
          ["spec", "selector"]).SetNestedFieldNoCopy
          (.gvkList enum)
          ["spec", "componentGroupKinds"]).SetNestedFieldNoCopy
          (.str c.version)
          ["spec", "descriptor", "version"]).SetNestedFieldNoCopy
          (.str (if c.healthy then Succeeded else Pending))
          ["spec", "assemblyPhase"]))) := by
      rw [applyImageRegistry_eq, hmapC]
    have hcountC : countApps
        ((objs.map (applyImageRegistryToObject registry secret)).set k
        ((((a1.SetNestedFieldNoCopy (.labelSelector (lm inst))
          ["spec", "selector"]).SetNestedFieldNoCopy
          (.gvkList enum)
          ["spec", "componentGroupKinds"]).SetNestedFieldNoCopy
          (.str c.version)
          ["spec", "descriptor", "version"]).SetNestedFieldNoCopy
          (.str (if c.healthy then Succeeded else Pending))
          ["spec", "assemblyPhase"])) = 1 := by
      unfold countApps
      rw [countP_set_eq isApplication _ k a1
        ((((a1.SetNestedFieldNoCopy (.labelSelector (lm inst))
          ["spec", "selector"]).SetNestedFieldNoCopy
          (.gvkList enum)
          ["spec", "componentGroupKinds"]).SetNestedFieldNoCopy
          (.str c.version)
          ["spec", "descriptor", "version"]).SetNestedFieldNoCopy
          (.str (if c.healthy then Succeeded else Pending))
          ["spec", "assemblyPhase"]) hkA rfl]
      exact h1A
    have hCk : ((objs.map (applyImageRegistryToObject registry secret)).set k
        ((((a1.SetNestedFieldNoCopy (.labelSelector (lm inst))
          ["spec", "selector"]).SetNestedFieldNoCopy
          (.gvkList enum)
          ["spec", "componentGroupKinds"]).SetNestedFieldNoCopy
          (.str c.version)
          ["spec", "descriptor", "version"]).SetNestedFieldNoCopy
          (.str (if c.healthy then Succeeded else Pending))
          ["spec", "assemblyPhase"]))[k]? = some
        ((((a1.SetNestedFieldNoCopy (.labelSelector (lm inst))
          ["spec", "selector"]).SetNestedFieldNoCopy
          (.gvkList enum)
          ["spec", "componentGroupKinds"]).SetNestedFieldNoCopy
          (.str c.version)
          ["spec", "descriptor", "version"]).SetNestedFieldNoCopy
          (.str (if c.healthy then Succeeded else Pending))
          ["spec", "assemblyPhase"]) :=
      getElem?_set_self (objs.map (applyImageRegistryToObject registry secret)) k
        ((((a1.SetNestedFieldNoCopy (.labelSelector (lm inst))
          ["spec", "selector"]).SetNestedFieldNoCopy
          (.gvkList enum)
          ["spec", "componentGroupKinds"]).SetNestedFieldNoCopy
          (.str c.version)
          ["spec", "descriptor", "version"]).SetNestedFieldNoCopy
          (.str (if c.healthy then Succeeded else Pending))
          ["spec", "assemblyPhase"]) hklen
    have hpair2 := appSyncEnum_pair_one enum inst c lm
      ((objs.map (applyImageRegistryToObject registry secret)).set k
        ((((a1.SetNestedFieldNoCopy (.labelSelector (lm inst))
          ["spec", "selector"]).SetNestedFieldNoCopy
          (.gvkList enum)
          ["spec", "componentGroupKinds"]).SetNestedFieldNoCopy
          (.str c.version)
          ["spec", "descriptor", "version"]).SetNestedFieldNoCopy
          (.str (if c.healthy then Succeeded else Pending))
          ["spec", "assemblyPhase"])) k
      ((((a1.SetNestedFieldNoCopy (.labelSelector (lm inst))
          ["spec", "selector"]).SetNestedFieldNoCopy
          (.gvkList enum)
          ["spec", "componentGroupKinds"]).SetNestedFieldNoCopy
          (.str c.version)
          ["spec", "descriptor", "version"]).SetNestedFieldNoCopy
          (.str (if c.healthy then Succeeded else Pending))
          ["spec", "assemblyPhase"]) hc hcountC hCk haA
    have hpipe2 := pipelineWithEnum_of_parts enum inst lm registry secret
      ((objs.map (applyImageRegistryToObject registry secret)).set k
        ((((a1.SetNestedFieldNoCopy (.labelSelector (lm inst))
          ["spec", "selector"]).SetNestedFieldNoCopy
          (.gvkList enum)
          ["spec", "componentGroupKinds"]).SetNestedFieldNoCopy
          (.str c.version)
          ["spec", "descriptor", "version"]).SetNestedFieldNoCopy
          (.str (if c.healthy then Succeeded else Pending))
          ["spec", "assemblyPhase"])) _ _ _ hA2C hpair2.1 hpair2.2
    constructor
    · rw [hpipe1]
    · rw [hpipe1]
      rw [hpipe2]
      rw [SetNestedFieldNoCopy_seq4_idem a1 ["spec", "selector"]
        ["spec", "componentGroupKinds"] ["spec", "descriptor", "version"]
        ["spec", "assemblyPhase"] (.labelSelector (lm inst))
        (.gvkList enum)
        (.str c.version) (.str (if c.healthy then Succeeded else Pending))
        (by decide) (by decide) (by decide) (by decide) (by decide)
        (by decide)]
      rw [set_getElem?_eq _ k _ hCk]
  · have hnA : countApps
        (objs.map (applyImageRegistryToObject registry secret)) ≠ 1 := by
      rw [hAcount]; exact h1
    have hpairA := appSyncEnum_pair_noop enum inst c lm
      (objs.map (applyImageRegistryToObject registry secret)) hc hnA
    have hpipe1 := pipelineWithEnum_of_parts enum inst lm registry secret
      objs _ _ _ hA hpairA.1 hpairA.2
    have hpipe2 := pipelineWithEnum_of_parts enum inst lm registry secret
      (objs.map (applyImageRegistryToObject registry secret)) _ _ _ hA2
      hpairA.1 hpairA.2
    exact ⟨by rw [hpipe1], by rw [hpipe1, hpipe2]⟩

/-- Witness for C8's amended statement at a concrete input, using the
enumeration the deterministic model produces for that object set. -/
theorem object_transforms_idempotent_fixed_enum_witness :
    ownerWithCommon.common = some ⟨true, "1.0.0"⟩ ∧
    ((objectTransformPipelineWithEnum
        [⟨"apps", "v1", "Deployment"⟩,
          ⟨"app.k8s.io", "v1beta1", "Application"⟩]
        ownerWithCommon fixedLabels "reg.io" "sec"
        [deployObj, appObj]).1 = none ∧
      objectTransformPipelineWithEnum
          [⟨"apps", "v1", "Deployment"⟩,
            ⟨"app.k8s.io", "v1beta1", "Application"⟩]
          ownerWithCommon fixedLabels "reg.io" "sec"
          (objectTransformPipelineWithEnum
            [⟨"apps", "v1", "Deployment"⟩,
              ⟨"app.k8s.io", "v1beta1", "Application"⟩]
            ownerWithCommon fixedLabels "reg.io" "sec"
            [deployObj, appObj]).2 =
        objectTransformPipelineWithEnum
          [⟨"apps", "v1", "Deployment"⟩,
            ⟨"app.k8s.io", "v1beta1", "Application"⟩]
          ownerWithCommon fixedLabels "reg.io" "sec"
          [deployObj, appObj]) :=
  ⟨rfl, object_transforms_idempotent_fixed_enum
    [⟨"apps", "v1", "Deployment"⟩, ⟨"app.k8s.io", "v1beta1", "Application"⟩]
    ownerWithCommon ⟨true, "1.0.0"⟩ fixedLabels "reg.io" "sec"
    [deployObj, appObj] rfl⟩
